import Mathlib

/-!
Verification of the reconciliation core of `gcal-pull-view` (src/main.rs):
a shallow embedding of the calendar record codec, the source and mirror
adapters' event decoding, the value-based diff engine, and the periodic
sync driver, together with theorems settling the specified properties.

Conventions of the embedding:
* `chrono::DateTime<Utc>` is modelled as `Int`: seconds since the Unix
  epoch (two `DateTime<Utc>` values are equal iff their instants are);
  definitions call such an integer an instant.
* chrono's proleptic Gregorian calendar arithmetic is modelled by
  `civilToDays` / `daysToCivil` below, extensionally equal to chrono's
  date conversions (both implement the Gregorian leap-year rules).
* `HashSet<&Event>` (with `Event`'s structural `Hash`/`PartialEq` over
  start/end/summary) is modelled as a duplicate-free list built by
  `List.insert`; membership agrees with the Rust set because the hash set
  is keyed by exactly that structural equality.
* Fallible Rust code (`anyhow::Result`) is modelled with `Except`/`Option`;
  error *kinds* replace the human-readable context strings.
-/


/-! ### Proleptic Gregorian calendar arithmetic (model of chrono's dates) -/

/-- Gregorian leap-year rule (as in chrono). -/
def isLeap (y : Int) : Bool :=
  (y % 4 == 0 && y % 100 != 0) || y % 400 == 0

theorem isLeap_iff (y : Int) :
    isLeap y = true ↔ ((y % 4 = 0 ∧ ¬ y % 100 = 0) ∨ y % 400 = 0) := by
  simp [isLeap]

def daysInYear (y : Int) : Int := if isLeap y then 366 else 365

theorem daysInYear_eq (y : Int) : daysInYear y = 365 ∨ daysInYear y = 366 := by
  unfold daysInYear; split <;> simp

/-- Length in days of month `m` (1..12) of year `y` (as in chrono). -/
def daysInMonth (y m : Int) : Int :=
  if m = 1 then 31 else if m = 2 then (if isLeap y then 29 else 28)
  else if m = 3 then 31 else if m = 4 then 30 else if m = 5 then 31
  else if m = 6 then 30 else if m = 7 then 31 else if m = 8 then 31
  else if m = 9 then 30 else if m = 10 then 31 else if m = 11 then 30 else 31

/-- Days from 0000-01-01 to `y`-01-01 in the proleptic Gregorian calendar. -/
def daysBeforeYear (y : Int) : Int :=
  365 * y + (y + 3) / 4 - (y + 99) / 100 + (y + 399) / 400

/-- Days from `y`-01-01 to `y`-`m`-01; defined for `m` in 1..13
(`m = 13` denotes the start of the next year and is used only in proofs). -/
def daysBeforeMonth (y m : Int) : Int :=
  (if m ≤ 1 then 0 else if m ≤ 2 then 31 else if m ≤ 3 then 59
   else if m ≤ 4 then 90 else if m ≤ 5 then 120 else if m ≤ 6 then 151
   else if m ≤ 7 then 181 else if m ≤ 8 then 212 else if m ≤ 9 then 243
   else if m ≤ 10 then 273 else if m ≤ 11 then 304
   else if m ≤ 12 then 334 else 365)
  + (if 3 ≤ m ∧ isLeap y = true then 1 else 0)

/-- Days since 1970-01-01 of the civil date `(y, m, d)` (month 1..12).
Models chrono's `NaiveDate::from_ymd` / day-count arithmetic. -/
def civilToDays (y m d : Int) : Int :=
  daysBeforeYear y + daysBeforeMonth y m + (d - 1) - 719528

/-- Year search within one 400-year era: starting at year `y` with `r` days
remaining, step year by year. Fuel 400 always suffices inside an era. -/
def yearSearch : Nat → Int → Int → Int × Int
  | 0, y, r => (y, r)
  | fuel+1, y, r =>
    if r < daysInYear y then (y, r) else yearSearch fuel (y + 1) (r - daysInYear y)

/-- Month search within one year, starting at month `m` with `r` days left. -/
def monthSearch : Nat → Int → Int → Int → Int × Int
  | 0, _, m, r => (m, r)
  | fuel+1, y, m, r =>
    if r < daysInMonth y m then (m, r) else monthSearch fuel y (m + 1) (r - daysInMonth y m)

/-- 400-year era index of day `z` (counted from 1970-01-01). -/
def dtcEra (z : Int) : Int := (z + 719528) / 146097

/-- Day-of-era of day `z`: offset inside the era, in `[0, 146096]`. -/
def dtcDoe (z : Int) : Int := z + 719528 - dtcEra z * 146097

/-- Year locating step of the day-to-civil conversion. -/
def dtcYr (z : Int) : Int × Int := yearSearch 400 (400 * dtcEra z) (dtcDoe z)

/-- Month locating step of the day-to-civil conversion. -/
def dtcMd (z : Int) : Int × Int := monthSearch 12 (dtcYr z).1 1 (dtcYr z).2

/-- Civil date `(y, m, d)` of the day `z` counted from 1970-01-01.
Models chrono's conversion from a day count back to a Gregorian date:
reduce modulo a 400-year era (146097 days), then locate year and month. -/
def daysToCivil (z : Int) : Int × Int × Int :=
  ((dtcYr z).1, (dtcMd z).1, (dtcMd z).2 + 1)

theorem daysBeforeYear_succ (y : Int) :
    daysBeforeYear (y + 1) = daysBeforeYear y + daysInYear y := by
  have hiff := isLeap_iff y
  unfold daysBeforeYear daysInYear
  by_cases h : isLeap y = true
  · rw [if_pos h]
    have hy : (y % 4 = 0 ∧ ¬ y % 100 = 0) ∨ y % 400 = 0 := hiff.mp h
    omega
  · rw [if_neg h]
    have hy : ¬ ((y % 4 = 0 ∧ ¬ y % 100 = 0) ∨ y % 400 = 0) := fun c => h (hiff.mpr c)
    omega

theorem daysBeforeYear_era (e : Int) : daysBeforeYear (400 * e) = 146097 * e := by
  unfold daysBeforeYear
  omega

theorem daysInYear_pos (y : Int) : 365 ≤ daysInYear y := by
  rcases daysInYear_eq y with h | h <;> omega

/-- Correctness of `yearSearch`: starting at year `y` with `0 ≤ r` days and
enough fuel, it lands in the unique year containing the day. -/
theorem yearSearch_spec (fuel : Nat) :
    ∀ y r : Int, 0 ≤ r →
    daysBeforeYear y + r < daysBeforeYear (y + fuel) →
    daysBeforeYear (yearSearch fuel y r).1 + (yearSearch fuel y r).2 =
        daysBeforeYear y + r ∧
    0 ≤ (yearSearch fuel y r).2 ∧
    (yearSearch fuel y r).2 < daysInYear (yearSearch fuel y r).1 ∧
    y ≤ (yearSearch fuel y r).1 ∧ (yearSearch fuel y r).1 < y + fuel := by
  induction fuel with
  | zero =>
    intro y r h0 hlt
    simp only [Nat.cast_zero, add_zero] at hlt
    omega
  | succ n ih =>
    intro y r h0 hlt
    rw [yearSearch]
    by_cases hc : r < daysInYear y
    · rw [if_pos hc]
      refine ⟨rfl, h0, hc, le_refl y, ?_⟩
      have : (0 : Int) < (n : Int) + 1 := by positivity
      omega
    · rw [if_neg hc]
      push_neg at hc
      have hstep := daysBeforeYear_succ y
      have h0' : 0 ≤ r - daysInYear y := by omega
      have hlt' : daysBeforeYear (y + 1) + (r - daysInYear y) <
          daysBeforeYear (y + 1 + n) := by
        have : (y : Int) + 1 + n = y + (n + 1 : Nat) := by push_cast; ring
        rw [this]
        omega
      have := ih (y + 1) (r - daysInYear y) h0' hlt'
      have hy := daysInYear_pos y
      constructor
      · omega
      · refine ⟨this.2.1, this.2.2.1, by omega, by push_cast at this ⊢; omega⟩

theorem daysBeforeMonth_one (y : Int) : daysBeforeMonth y 1 = 0 := by
  unfold daysBeforeMonth
  norm_num

theorem daysBeforeMonth_year (y : Int) : daysBeforeMonth y 13 = daysInYear y := by
  unfold daysBeforeMonth daysInYear
  by_cases h : isLeap y = true
  · rw [if_pos h]; norm_num [h]
  · simp only [Bool.not_eq_true] at h
    rw [if_neg (by simp [h])]; norm_num [h]

theorem daysBeforeMonth_succ (y m : Int) (h1 : 1 ≤ m) (h2 : m ≤ 12) :
    daysBeforeMonth y (m + 1) = daysBeforeMonth y m + daysInMonth y m := by
  by_cases hL : isLeap y = true <;>
    interval_cases m <;>
      norm_num [daysBeforeMonth, daysInMonth, hL]

theorem daysInMonth_pos (y m : Int) (h1 : 1 ≤ m) (h2 : m ≤ 12) :
    28 ≤ daysInMonth y m := by
  by_cases hL : isLeap y = true <;>
    interval_cases m <;>
      norm_num [daysInMonth, hL]

/-- Correctness of `monthSearch` within a year. -/
theorem monthSearch_spec (fuel : Nat) :
    ∀ y m r : Int, 0 ≤ r → 1 ≤ m → m + fuel ≤ 13 →
    daysBeforeMonth y m + r < daysBeforeMonth y (m + fuel) →
    daysBeforeMonth y (monthSearch fuel y m r).1 + (monthSearch fuel y m r).2 =
        daysBeforeMonth y m + r ∧
    0 ≤ (monthSearch fuel y m r).2 ∧
    (monthSearch fuel y m r).2 < daysInMonth y (monthSearch fuel y m r).1 ∧
    m ≤ (monthSearch fuel y m r).1 ∧ (monthSearch fuel y m r).1 < m + fuel := by
  induction fuel with
  | zero =>
    intro y m r h0 hm1 hm2 hlt
    simp only [Nat.cast_zero, add_zero] at hlt
    omega
  | succ n ih =>
    intro y m r h0 hm1 hm2 hlt
    rw [monthSearch]
    by_cases hc : r < daysInMonth y m
    · rw [if_pos hc]
      refine ⟨rfl, h0, hc, le_refl m, ?_⟩
      have : (0 : Int) < (n : Int) + 1 := by positivity
      omega
    · rw [if_neg hc]
      push_neg at hc
      have hm12 : m ≤ 12 := by push_cast at hm2; omega
      have hstep := daysBeforeMonth_succ y m hm1 hm12
      have h0' : 0 ≤ r - daysInMonth y m := by omega
      have hm2' : m + 1 + (n : Int) ≤ 13 := by push_cast at hm2 ⊢; omega
      have hlt' : daysBeforeMonth y (m + 1) + (r - daysInMonth y m) <
          daysBeforeMonth y (m + 1 + n) := by
        have : (m : Int) + 1 + n = m + (n + 1 : Nat) := by push_cast; ring
        rw [this]
        omega
      have := ih y (m + 1) (r - daysInMonth y m) h0' (by omega) hm2' hlt'
      have hdm := daysInMonth_pos y m hm1 hm12
      refine ⟨by omega, this.2.1, this.2.2.1, by omega, by push_cast at this ⊢; omega⟩

/-- `daysToCivil` is a right inverse of `civilToDays`, and it always returns
a valid civil date. -/
theorem daysToCivil_valid (z : Int) :
    civilToDays (daysToCivil z).1 (daysToCivil z).2.1 (daysToCivil z).2.2 = z ∧
    1 ≤ (daysToCivil z).2.1 ∧ (daysToCivil z).2.1 ≤ 12 ∧
    1 ≤ (daysToCivil z).2.2 ∧
    (daysToCivil z).2.2 ≤ daysInMonth (daysToCivil z).1 (daysToCivil z).2.1 ∧
    daysBeforeYear (daysToCivil z).1 ≤ z + 719528 ∧
    z + 719528 < daysBeforeYear (daysToCivil z).1 + 366 ∧
    400 * dtcEra z ≤ (daysToCivil z).1 ∧ (daysToCivil z).1 < 400 * dtcEra z + 400 := by
  have hdoe0 : 0 ≤ dtcDoe z ∧ dtcDoe z < 146097 := by unfold dtcDoe dtcEra; omega
  have hyb : daysBeforeYear (400 * dtcEra z) + dtcDoe z <
      daysBeforeYear (400 * dtcEra z + ((400 : Nat) : Int)) := by
    have h2 : (400 : Int) * dtcEra z + ((400 : Nat) : Int) = 400 * (dtcEra z + 1) := by
      push_cast; ring
    rw [h2, daysBeforeYear_era, daysBeforeYear_era]
    omega
  have hys := yearSearch_spec 400 (400 * dtcEra z) (dtcDoe z) hdoe0.1 hyb
  rw [show yearSearch 400 (400 * dtcEra z) (dtcDoe z) = dtcYr z from rfl] at hys
  obtain ⟨hys1, hys2, hys3, hysA, hysB⟩ := hys
  have hysB2 : (dtcYr z).1 < 400 * dtcEra z + 400 := by push_cast at hysB; omega
  have hmb : daysBeforeMonth (dtcYr z).1 1 + (dtcYr z).2 <
      daysBeforeMonth (dtcYr z).1 (1 + ((12 : Nat) : Int)) := by
    have h13 : (1 : Int) + ((12 : Nat) : Int) = 13 := by norm_num
    rw [h13, daysBeforeMonth_year, daysBeforeMonth_one]
    omega
  have hms := monthSearch_spec 12 (dtcYr z).1 1 (dtcYr z).2 hys2 (le_refl 1)
    (by norm_num) hmb
  rw [show monthSearch 12 (dtcYr z).1 1 (dtcYr z).2 = dtcMd z from rfl] at hms
  obtain ⟨hms1, hms2, hms3, hms4, hms5⟩ := hms
  rw [daysBeforeMonth_one] at hms1
  have hms5' : (dtcMd z).1 < 13 := by push_cast at hms5; omega
  have hbe := daysBeforeYear_era (dtcEra z)
  have hdoez : dtcDoe z = z + 719528 - dtcEra z * 146097 := rfl
  have hdiy := daysInYear_eq (dtcYr z).1
  refine ⟨?_, ?_, ?_, ?_, ?_, ?_, ?_, ?_, ?_⟩
  · show civilToDays (dtcYr z).1 (dtcMd z).1 ((dtcMd z).2 + 1) = z
    unfold civilToDays
    omega
  · exact hms4
  · show (dtcMd z).1 ≤ 12
    omega
  · show 1 ≤ (dtcMd z).2 + 1
    omega
  · show (dtcMd z).2 + 1 ≤ daysInMonth (dtcYr z).1 (dtcMd z).1
    omega
  · show daysBeforeYear (dtcYr z).1 ≤ z + 719528
    omega
  · show z + 719528 < daysBeforeYear (dtcYr z).1 + 366
    omega
  · exact hysA
  · exact hysB2

/-! ### Civil date-times at second granularity -/

/-- Model of `chrono::NaiveDateTime`: a civil wall-clock date-time. -/
structure NaiveCivil where
  year : Int
  month : Int
  day : Int
  hour : Int
  minute : Int
  second : Int
deriving DecidableEq

/-- Seconds since the Unix epoch of a civil date-time read as UTC
(models `NaiveDateTime::and_utc().timestamp()`). -/
def epochOfCivil (c : NaiveCivil) : Int :=
  86400 * civilToDays c.year c.month c.day + 3600 * c.hour + 60 * c.minute + c.second

/-- Civil date-time (UTC) of an epoch instant (models breaking a
`DateTime<Utc>` into calendar fields, as chrono's formatter does). -/
def epochToCivil (t : Int) : NaiveCivil :=
  ⟨(daysToCivil (t / 86400)).1, (daysToCivil (t / 86400)).2.1,
   (daysToCivil (t / 86400)).2.2,
   t % 86400 / 3600, t % 86400 % 3600 / 60, t % 86400 % 60⟩

theorem epochOfCivil_epochToCivil (t : Int) :
    epochOfCivil (epochToCivil t) = t := by
  show 86400 * civilToDays (daysToCivil (t / 86400)).1 (daysToCivil (t / 86400)).2.1
        (daysToCivil (t / 86400)).2.2 +
      3600 * (t % 86400 / 3600) + 60 * (t % 86400 % 3600 / 60) + t % 86400 % 60 = t
  rw [(daysToCivil_valid (t / 86400)).1]
  have key : ∀ s : Int, 3600 * (s / 3600) + 60 * (s % 3600 / 60) + s % 60 = s := by
    intro s
    have h36 : 3600 * (s / 3600) + s % 3600 = s := by omega
    have h60 : 60 * (s % 3600 / 60) + s % 3600 % 60 = s % 3600 := by omega
    have hmm : s % 3600 % 60 = s % 60 := by omega
    omega
  have hk := key (t % 86400)
  omega

/-! ### Digit formatting and parsing (model of chrono's `%Y%m%dT%H%M%S[Z]`) -/

/-- The decimal digit character for `n` in `0..9`. -/
def digitChar (n : Int) : Char := Char.ofNat (48 + n.toNat)

/-- Numeric value of a decimal digit character. -/
def digitVal (c : Char) : Int := (c.toNat : Int) - 48

def isDigitChar (c : Char) : Bool := 48 ≤ c.toNat && c.toNat ≤ 57

/-- Zero-padded 4-digit decimal rendering (chrono's `%Y` on years 0..9999). -/
def fmt4 (n : Int) : List Char :=
  [digitChar (n / 1000 % 10), digitChar (n / 100 % 10),
   digitChar (n / 10 % 10), digitChar (n % 10)]

/-- Zero-padded 2-digit decimal rendering (chrono's `%m`/`%d`/`%H`/`%M`/`%S`). -/
def fmt2 (n : Int) : List Char :=
  [digitChar (n / 10 % 10), digitChar (n % 10)]

/-- Characters of `format("%Y%m%dT%H%M%S")` applied to a civil date-time
(faithful to chrono for years 0..9999). -/
def fmtCivilChars (c : NaiveCivil) : List Char :=
  fmt4 c.year ++ fmt2 c.month ++ fmt2 c.day ++ ['T'] ++
    fmt2 c.hour ++ fmt2 c.minute ++ fmt2 c.second

/-- Characters of `format("%Y%m%dT%H%M%SZ")` applied to instant `t`
(faithful to chrono for instants whose year lies in 0..9999). -/
def fmtInstantChars (t : Int) : List Char :=
  fmtCivilChars (epochToCivil t) ++ ['Z']

/-- Two-digit group value. -/
def num2 (a b : Char) : Int := 10 * digitVal a + digitVal b

/-- Four-digit group value. -/
def num4 (a b c d : Char) : Int :=
  1000 * digitVal a + 100 * digitVal b + 10 * digitVal c + digitVal d

/-- chrono's field validation of a parsed `%Y%m%dT%H%M%S` date-time:
month 1..12, day fitting the month, hour < 24, minute and second < 60. -/
def validCivil (c : NaiveCivil) : Prop :=
  1 ≤ c.month ∧ c.month ≤ 12 ∧ 1 ≤ c.day ∧ c.day ≤ daysInMonth c.year c.month ∧
  0 ≤ c.hour ∧ c.hour ≤ 23 ∧ 0 ≤ c.minute ∧ c.minute ≤ 59 ∧
  0 ≤ c.second ∧ c.second ≤ 59

instance (c : NaiveCivil) : Decidable (validCivil c) := by
  unfold validCivil; infer_instance

/-- Parse of the 15-character pattern `%Y%m%dT%H%M%S` with chrono's field
validation (month 1..12, day fitting the month, hour < 24, minute and
second < 60); any other shape is a parse error. -/
def parseCivilChars (cs : List Char) : Option NaiveCivil :=
  match cs with
  | [y1, y2, y3, y4, m1, m2, d1, d2, tc, h1, h2, mi1, mi2, s1, s2] =>
    if (isDigitChar y1 && isDigitChar y2 && isDigitChar y3 && isDigitChar y4 &&
        isDigitChar m1 && isDigitChar m2 && isDigitChar d1 && isDigitChar d2 &&
        isDigitChar h1 && isDigitChar h2 && isDigitChar mi1 && isDigitChar mi2 &&
        isDigitChar s1 && isDigitChar s2) = true ∧ tc = 'T' ∧
        validCivil ⟨num4 y1 y2 y3 y4, num2 m1 m2, num2 d1 d2,
          num2 h1 h2, num2 mi1 mi2, num2 s1 s2⟩ then
      some ⟨num4 y1 y2 y3 y4, num2 m1 m2, num2 d1 d2,
        num2 h1 h2, num2 mi1 mi2, num2 s1 s2⟩
    else none
  | _ => none

/-- Parse of the 16-character pattern `%Y%m%dT%H%M%SZ` (trailing literal
`Z`), as used by the UTC branch of `parse_ical_datetime`. -/
def parseZChars (cs : List Char) : Option NaiveCivil :=
  if cs.getLast? = some 'Z' then parseCivilChars cs.dropLast else none

theorem daysInMonth_le31 (y m : Int) (h1 : 1 ≤ m) (h2 : m ≤ 12) :
    daysInMonth y m ≤ 31 := by
  by_cases hL : isLeap y = true <;>
    interval_cases m <;>
      norm_num [daysInMonth, hL]

theorem digitVal_digitChar (n : Int) (h0 : 0 ≤ n) (h1 : n ≤ 9) :
    digitVal (digitChar n) = n := by
  interval_cases n <;> decide

theorem isDigitChar_digitChar (n : Int) (h0 : 0 ≤ n) (h1 : n ≤ 9) :
    isDigitChar (digitChar n) = true := by
  interval_cases n <;> decide

theorem num2_digits (n : Int) (h0 : 0 ≤ n) (h1 : n ≤ 99) :
    num2 (digitChar (n / 10 % 10)) (digitChar (n % 10)) = n := by
  unfold num2
  rw [digitVal_digitChar _ (by omega) (by omega),
    digitVal_digitChar _ (by omega) (by omega)]
  omega

theorem num4_digits (n : Int) (h0 : 0 ≤ n) (h1 : n ≤ 9999) :
    num4 (digitChar (n / 1000 % 10)) (digitChar (n / 100 % 10))
      (digitChar (n / 10 % 10)) (digitChar (n % 10)) = n := by
  unfold num4
  rw [digitVal_digitChar _ (by omega) (by omega),
    digitVal_digitChar _ (by omega) (by omega),
    digitVal_digitChar _ (by omega) (by omega),
    digitVal_digitChar _ (by omega) (by omega)]
  omega

/-- Parsing inverts formatting on valid civil date-times with 4-digit years. -/
theorem parseCivilChars_fmtCivilChars (c : NaiveCivil)
    (hy0 : 0 ≤ c.year) (hy1 : c.year ≤ 9999) (hv : validCivil c) :
    parseCivilChars (fmtCivilChars c) = some c := by
  obtain ⟨y, mo, d, h, mi, s⟩ := c
  obtain ⟨h1, h2, h3, h4, h5, h6, h7, h8, h9, h10⟩ := hv
  simp only [NaiveCivil.year] at hy0 hy1
  simp only [NaiveCivil.month, NaiveCivil.day, NaiveCivil.hour, NaiveCivil.minute,
    NaiveCivil.second, NaiveCivil.year] at h1 h2 h3 h4 h5 h6 h7 h8 h9 h10
  have hd31 : d ≤ 99 := by
    have := daysInMonth_le31 y mo h1 h2
    omega
  have e4 : num4 (digitChar (y / 1000 % 10)) (digitChar (y / 100 % 10))
      (digitChar (y / 10 % 10)) (digitChar (y % 10)) = y := num4_digits y hy0 hy1
  have emo : num2 (digitChar (mo / 10 % 10)) (digitChar (mo % 10)) = mo :=
    num2_digits mo (by omega) (by omega)
  have ed : num2 (digitChar (d / 10 % 10)) (digitChar (d % 10)) = d :=
    num2_digits d (by omega) hd31
  have eh : num2 (digitChar (h / 10 % 10)) (digitChar (h % 10)) = h :=
    num2_digits h (by omega) (by omega)
  have emi : num2 (digitChar (mi / 10 % 10)) (digitChar (mi % 10)) = mi :=
    num2_digits mi (by omega) (by omega)
  have es : num2 (digitChar (s / 10 % 10)) (digitChar (s % 10)) = s :=
    num2_digits s (by omega) (by omega)
  simp only [fmtCivilChars, fmt4, fmt2, List.cons_append, List.nil_append,
    parseCivilChars]
  rw [if_pos]
  · rw [e4, emo, ed, eh, emi, es]
  · refine ⟨?_, trivial, ?_⟩
    · simp only [Bool.and_eq_true]
      refine ⟨⟨⟨⟨⟨⟨⟨⟨⟨⟨⟨⟨⟨?_, ?_⟩, ?_⟩, ?_⟩, ?_⟩, ?_⟩, ?_⟩, ?_⟩, ?_⟩, ?_⟩, ?_⟩, ?_⟩, ?_⟩, ?_⟩ <;>
        exact isDigitChar_digitChar _ (by omega) (by omega)
    · rw [e4, emo, ed, eh, emi, es]
      exact ⟨h1, h2, h3, h4, h5, h6, h7, h8, h9, h10⟩

theorem validCivil_epochToCivil (t : Int) : validCivil (epochToCivil t) := by
  have hv := daysToCivil_valid (t / 86400)
  unfold validCivil epochToCivil
  dsimp only
  refine ⟨hv.2.1, hv.2.2.1, hv.2.2.2.1, hv.2.2.2.2.1, by omega, by omega,
    by omega, by omega, by omega, by omega⟩

theorem epochToCivil_year_range (t : Int) (h0 : 0 ≤ t) (h1 : t < 253402300800) :
    0 ≤ (epochToCivil t).year ∧ (epochToCivil t).year ≤ 9999 := by
  have hv := daysToCivil_valid (t / 86400)
  show 0 ≤ (daysToCivil (t / 86400)).1 ∧ (daysToCivil (t / 86400)).1 ≤ 9999
  have h8 := hv.2.2.2.2.2.2.2.1
  have h9 := hv.2.2.2.2.2.2.2.2
  unfold dtcEra at h8 h9
  omega

/-- Full roundtrip at the character level: parsing the `%Y%m%dT%H%M%SZ`
rendering of an instant recovers its civil fields. -/
theorem parseZChars_fmtInstantChars (t : Int) (h0 : 0 ≤ t)
    (h1 : t < 253402300800) :
    parseZChars (fmtInstantChars t) = some (epochToCivil t) := by
  unfold fmtInstantChars parseZChars
  rw [List.getLast?_concat, if_pos rfl, List.dropLast_concat]
  exact parseCivilChars_fmtCivilChars _ (epochToCivil_year_range t h0 h1).1
    (epochToCivil_year_range t h0 h1).2 (validCivil_epochToCivil t)

/-- Structural decidable equality for `Except` results. -/
instance {e a : Type} [DecidableEq e] [DecidableEq a] : DecidableEq (Except e a) :=
  fun x y =>
    match x, y with
    | .ok v, .ok w =>
      if h : v = w then .isTrue (by rw [h])
      else .isFalse (by intro hc; cases hc; exact h rfl)
    | .error v, .error w =>
      if h : v = w then .isTrue (by rw [h])
      else .isFalse (by intro hc; cases hc; exact h rfl)
    | .ok _, .error _ => .isFalse (by intro hc; cases hc)
    | .error _, .ok _ => .isFalse (by intro hc; cases hc)

/-! ### iCal data model (model of `minicaldav::ical`) -/

/-- Model of `minicaldav::ical::Property`: a named property with a value and
a map of attributes (such as `TZID`), here an association list. -/
structure ICalProperty where
  name : String
  value : String
  attributes : List (String × String)
deriving DecidableEq

/-- Model of `minicaldav::ical::Ical`: a named block with properties and
child blocks. -/
inductive Ical where
  | mk (name : String) (properties : List ICalProperty) (children : List Ical)

def Ical.name : Ical → String
  | .mk n _ _ => n

def Ical.properties : Ical → List ICalProperty
  | .mk _ ps _ => ps

def Ical.children : Ical → List Ical
  | .mk _ _ cs => cs

/-- `HashMap::get` on the modelled attribute list. -/
def attrsGet (attrs : List (String × String)) (key : String) : Option String :=
  (attrs.find? (fun kv => kv.1 == key)).map (·.2)

/-! ### Timezone model (model of `chrono_tz::Tz`) -/

/-- A named timezone: the (finite) set of UTC offsets it ever uses, and its
offset (seconds east of UTC) as a function of the UTC instant. -/
structure TzModel where
  possibleOffsets : List Int
  offsetAtUtc : Int → Int

/-- A `TzModel` is well formed when the offset in force at any instant is
listed among its possible offsets. -/
def tzWellFormed (tz : TzModel) : Prop :=
  ∀ t : Int, tz.offsetAtUtc t ∈ tz.possibleOffsets

/-- Model of chrono-tz's `NaiveDateTime::and_local_timezone(tz).single()`:
the list of UTC instants whose local wall clock in `tz` reads `l` (an epoch
count of the naive local fields) is `[l - o]` for each consistent offset
`o`; `.single()` yields the instant only when it is unique — a DST fold
(two candidates) or gap (none) yields `none`. -/
def localToUtcSingle (tz : TzModel) (l : Int) : Option Int :=
  match (tz.possibleOffsets.filter (fun o => tz.offsetAtUtc (l - o) == o)).dedup with
  | [o] => some (l - o)
  | _ => none

/-- Error kinds of the modelled `parse_ical_datetime` (the Rust function
reports them as context strings on `anyhow::Error`). -/
inductive DtParseError where
  /-- `NaiveDateTime::parse_from_str` failure. -/
  | formatError
  /-- "Missing key TZID in ical datetime property". -/
  | missingTzid
  /-- `TZID` value not a known zone (`Tz::from_str` failure). -/
  | unknownTimezone
  /-- "Ambiguous or invalid local time" (`LocalResult::single()` returned
  `None`: DST fold or gap). -/
  | ambiguousLocalTime
deriving DecidableEq

/-- Model of `parse_ical_datetime` (src/main.rs lines 91-109), parameterized
by the timezone database `tzdb` (model of `chrono_tz`'s name lookup):
a value ending in `Z` is parsed as `%Y%m%dT%H%M%SZ` and read as UTC;
otherwise the property must carry a `TZID` attribute naming a known zone,
the value is parsed as `%Y%m%dT%H%M%S` and converted from that zone's local
wall clock to UTC, failing when the local time is ambiguous or invalid. -/
def parse_ical_datetime (tzdb : String → Option TzModel) (p : ICalProperty) :
    Except DtParseError Int :=
  if p.value.data.getLast? = some 'Z' then
    match parseZChars p.value.data with
    | some c => .ok (epochOfCivil c)
    | none => .error .formatError
  else
    match attrsGet p.attributes "TZID" with
    | none => .error .missingTzid
    | some tzname =>
      match tzdb tzname with
      | none => .error .unknownTimezone
      | some tz =>
        match parseCivilChars p.value.data with
        | none => .error .formatError
        | some c =>
          match localToUtcSingle tz (epochOfCivil c) with
          | some t => .ok t
          | none => .error .ambiguousLocalTime

/-! #### America/New_York (fragment of the IANA database used by claims) -/

/-- Day (since epoch) of the second Sunday of March of year `y`. -/
def secondSundayMarch (y : Int) : Int :=
  civilToDays y 3 1 + (7 - (civilToDays y 3 1 + 4) % 7) % 7 + 7

/-- Day (since epoch) of the first Sunday of November of year `y`. -/
def firstSundayNov (y : Int) : Int :=
  civilToDays y 11 1 + (7 - (civilToDays y 11 1 + 4) % 7) % 7

/-- UTC offset (seconds) of America/New_York at UTC instant `t`, per the
IANA rules in force since 2007 (the era relevant to this program's data):
EDT (`-4h`) from 07:00 UTC on the second Sunday of March until 06:00 UTC
on the first Sunday of November, EST (`-5h`) otherwise. -/
def nyOffsetAtUtc (t : Int) : Int :=
  if 86400 * secondSundayMarch (daysToCivil (t / 86400)).1 + 25200 ≤ t ∧
      t < 86400 * firstSundayNov (daysToCivil (t / 86400)).1 + 21600
  then -14400 else -18000

def nyTz : TzModel := ⟨[-18000, -14400], nyOffsetAtUtc⟩

/-- The fragment of the timezone database consulted by the claims. -/
def tzdb0 (s : String) : Option TzModel :=
  if s = "America/New_York" then some nyTz else none

/-! ### Core data model (`Event`, `EventWithCaldavUid`, src/main.rs 41-68) -/

/-- Model of `Event` (src/main.rs lines 41-46). Its Rust `PartialEq`/`Hash`
(lines 48-62) are structural over exactly start/end/summary, which is the
derived structural equality here. The Rust field `end` is a reserved word
in Lean and is modelled as `end_`. -/
structure Event where
  start : Int
  end_ : Int
  summary : String
deriving DecidableEq

/-- Model of `EventWithCaldavUid` (lines 64-68). -/
structure EventWithCaldavUid where
  caldav_uid : String
  event : Event
deriving DecidableEq

/-- Model of `Event::to_ical` (lines 70-89): one VCALENDAR with one VEVENT
child carrying exactly UID, SUMMARY, DTSTART, DTEND (in that order), the
two timestamps rendered with `format("%Y%m%dT%H%M%SZ")`. -/
def Event.to_ical (e : Event) (uid : String) : Ical :=
  .mk "VCALENDAR" []
    [.mk "VEVENT"
      [⟨"UID", uid, []⟩,
       ⟨"SUMMARY", e.summary, []⟩,
       ⟨"DTSTART", String.mk (fmtInstantChars e.start), []⟩,
       ⟨"DTEND", String.mk (fmtInstantChars e.end_), []⟩]
      []]

/-- Model of `get_ical_property` (lines 111-120): the first property with
the given name; `none` models the "Looking up property" context error. -/
def get_ical_property (ical : Ical) (property_name : String) :
    Option ICalProperty :=
  ical.properties.find? (fun p => p.name == property_name)

/-! ### Mirror adapter decoding (`fetch_caldav_events`, src/main.rs 145-187) -/

/-- Error kinds of decoding one retained VEVENT (the Rust code wraps them in
a "Failed processing iCal event" context and logs them). -/
inductive DecodeErrorKind where
  /-- `get_ical_property` failed for this required property. -/
  | missingProp (name : String)
  /-- `parse_ical_datetime` failed for this timestamp property. -/
  | badDt (name : String) (e : DtParseError)
deriving DecidableEq

/-- Model of the per-event decoding closure (lines 162-179), in the Rust
evaluation order: UID, then DTSTART (lookup then parse), then DTEND, then
SUMMARY; the first failure aborts this event only. -/
def decode_caldav_event (tzdb : String → Option TzModel) (ical_event : Ical) :
    Except DecodeErrorKind EventWithCaldavUid :=
  match get_ical_property ical_event "UID" with
  | none => .error (.missingProp "UID")
  | some uidp =>
    match get_ical_property ical_event "DTSTART" with
    | none => .error (.missingProp "DTSTART")
    | some sp =>
      match parse_ical_datetime tzdb sp with
      | .error e => .error (.badDt "DTSTART" e)
      | .ok start =>
        match get_ical_property ical_event "DTEND" with
        | none => .error (.missingProp "DTEND")
        | some ep =>
          match parse_ical_datetime tzdb ep with
          | .error e => .error (.badDt "DTEND" e)
          | .ok end_ =>
            match get_ical_property ical_event "SUMMARY" with
            | none => .error (.missingProp "SUMMARY")
            | some sump => .ok ⟨uidp.value, ⟨start, end_, sump.value⟩⟩

/-- The blocks of the document that reach the decoding stage (lines
151-161): children named `VEVENT` whose `DTSTART` exists and has a value
containing `T` (the time-component / all-day filter). -/
def retainedEvents (doc : Ical) : List Ical :=
  (doc.children.filter (fun item => item.name == "VEVENT")).filter
    (fun ical_event =>
      match get_ical_property ical_event "DTSTART" with
      | some prop => prop.value.data.contains 'T'
      | none => false)

/-- Model of the decoding pipeline of `fetch_caldav_events` (lines 145-187)
applied to an already fetched and parsed document: each retained block is
decoded; successes are collected in order, and each failure is logged
(`eprintln!("Skipping event: ...")`) and skipped. Returns the event list
together with the list of logged per-event errors. -/
def fetch_caldav_events (tzdb : String → Option TzModel) (doc : Ical) :
    List EventWithCaldavUid × List DecodeErrorKind :=
  ((retainedEvents doc).filterMap
      (fun ev => (decode_caldav_event tzdb ev).toOption),
   (retainedEvents doc).filterMap
      (fun ev =>
        match decode_caldav_event tzdb ev with
        | .ok _ => none
        | .error e => some e))

/-! ### Source adapter (`fetch_google_events`, src/main.rs 189-256) -/

/-- Model of `google_calendar3::api::EventDateTime`: this code reads only
`date_time`; an all-day (date-only) value has `date_time = none`. -/
structure GEventDateTime where
  date_time : Option Int
deriving DecidableEq

/-- Model of `google_calendar3::api::EventAttendee` (the read field). -/
structure GEventAttendee where
  response_status : Option String
deriving DecidableEq

/-- Model of `google_calendar3::api::Event` (the fields this code reads). -/
structure GEvent where
  start : Option GEventDateTime
  end_ : Option GEventDateTime
  summary : Option String
  attendees : Option (List GEventAttendee)
deriving DecidableEq

/-- Model of the per-item `filter_map` closure of `fetch_google_events`
(lines 237-252): an item is dropped when any listed attendee has response
status "declined" (an absent attendee list iterates as empty), and
otherwise converted from `start.date_time`, `end.date_time` and `summary`,
being silently dropped when any of the three is absent. -/
def convert_google_event (google_event : GEvent) : Option Event :=
  if (google_event.attendees.getD []).any
      (fun attendee => attendee.response_status == some "declined") then
    none
  else do
    let s ← google_event.start
    let st ← s.date_time
    let e ← google_event.end_
    let en ← e.date_time
    let sum ← google_event.summary
    pure ⟨st, en, sum⟩

/-- The failure of `fetch_google_events` after a successful query:
`result.items` absent ("Calendar events should exist"). Transport and auth
failures happen before the items are examined and are cycle failures. -/
inductive GFetchError where
  | missingItems
deriving DecidableEq

/-- Model of the item processing of `fetch_google_events` (lines 233-255):
absent `items` is an error; otherwise every item is converted, silently
dropping declined or incomplete ones, with no per-item diagnostic. -/
def fetch_google_events (items : Option (List GEvent)) :
    Except GFetchError (List Event) :=
  match items with
  | none => .error .missingItems
  | some items => .ok (items.filterMap convert_google_event)

/-! ### Diff engine (`find_diff`, src/main.rs 258-281) -/

/-- The `current_set` of `find_diff` (line 262): the set of `Event` values
underlying the mirror entries (`HashSet<&Event>`, keyed by `Event`'s
structural equality and hash, modelled as a duplicate-free list built by
`insert`). -/
def current_set (current : List EventWithCaldavUid) : List Event :=
  current.foldl (fun s e => s.insert e.event) []

/-- The `target_set` of `find_diff` (line 263). -/
def target_set (target : List Event) : List Event :=
  target.foldl (fun s e => s.insert e) []

/-- Model of `find_diff` (lines 258-281): build the two hash sets, then
stage every mirror entry whose value is not in the target set for deletion
and every target event whose value is not in the mirror set for creation,
preserving iteration order. -/
def find_diff (current : List EventWithCaldavUid) (target : List Event) :
    List EventWithCaldavUid × List Event :=
  (current.filter (fun e => ! (target_set target).contains e.event),
   target.filter (fun e => ! (current_set current).contains e))

/-! ### Sync driver (`sync` and `main`, src/main.rs 326-362) -/

/-- Error kinds of one sync cycle: the `?`-propagated failures of `sync`. -/
inductive SyncError where
  /-- `fetch_caldav_events` failed (HTTP, body, or document parse error). -/
  | caldavFetchError
  /-- `fetch_google_events` failed (query error or absent items). -/
  | googleFetchError
  /-- `delete_caldav_event` failed for this mirror uid. -/
  | deleteError (uid : String)
  /-- `create_caldav_event` failed for this event. -/
  | createError (ev : Event)
deriving DecidableEq

/-- One cycle's environment: what the two fetches would return and which
writes would succeed. -/
structure SyncWorld where
  caldavOk : Bool
  caldavEvents : List EventWithCaldavUid
  googleOk : Bool
  googleEvents : List Event
  deleteOk : EventWithCaldavUid → Bool
  createOk : Event → Bool

/-- A mirror write as applied by the driver. -/
inductive MirrorOp where
  | delete (e : EventWithCaldavUid)
  | create (ev : Event)
deriving DecidableEq

/-- The delete loop of `sync` (lines 343-345): apply deletions in order,
stopping at (and propagating) the first failure. Returns the applied
operations and the error, if any. -/
def runDeletes (w : SyncWorld) : List EventWithCaldavUid → List MirrorOp × Option SyncError
  | [] => ([], none)
  | e :: rest =>
    if w.deleteOk e then
      ((runDeletes w rest).1.cons (.delete e), (runDeletes w rest).2)
    else ([], some (.deleteError e.caldav_uid))

/-- The create loop of `sync` (lines 347-349). -/
def runCreates (w : SyncWorld) : List Event → List MirrorOp × Option SyncError
  | [] => ([], none)
  | ev :: rest =>
    if w.createOk ev then
      ((runCreates w rest).1.cons (.create ev), (runCreates w rest).2)
    else ([], some (.createError ev))

/-- Model of one run of `sync` (lines 326-352) against the environment `w`:
fetch the mirror, fetch the source, diff, then apply deletions before
creations, stopping at the first failure (each step is `?`-propagated).
Returns the mirror operations actually applied and the propagated error. -/
def sync (w : SyncWorld) : List MirrorOp × Option SyncError :=
  if w.caldavOk = false then ([], some .caldavFetchError)
  else if w.googleOk = false then ([], some .googleFetchError)
  else
    match runDeletes w (find_diff w.caldavEvents w.googleEvents).1 with
    | (dops, some e) => (dops, some e)
    | (dops, none) =>
      (dops ++ (runCreates w (find_diff w.caldavEvents w.googleEvents).2).1,
       (runCreates w (find_diff w.caldavEvents w.googleEvents).2).2)

/-- Model of the process state of `main` (lines 354-362): the fixed
interval loop runs `sync` once per tick, and a cycle failure is
`?`-propagated out of `main`, terminating the process. `mainLoop w n` is
the state after `n` ticks. -/
inductive ProcState where
  | running
  | terminated (e : SyncError)
deriving DecidableEq

def mainLoop (w : SyncWorld) : Nat → ProcState
  | 0 => .running
  | n + 1 =>
    match mainLoop w n with
    | .terminated e => .terminated e
    | .running =>
      match (sync w).2 with
      | some e => .terminated e
      | none => .running

/-! ### Lemmas about the diff engine -/

theorem mem_target_set (B : List Event) (a : Event) :
    a ∈ target_set B ↔ a ∈ B := by
  unfold target_set
  suffices h : ∀ init : List Event, a ∈ B.foldl (fun s e => s.insert e) init ↔
      a ∈ init ∨ a ∈ B by
    rw [h []]; simp
  induction B with
  | nil => intro init; simp
  | cons x xs ih =>
    intro init
    rw [List.foldl_cons, ih, List.mem_insert_iff, List.mem_cons]
    tauto

theorem mem_current_set (A : List EventWithCaldavUid) (a : Event) :
    a ∈ current_set A ↔ a ∈ A.map (·.event) := by
  unfold current_set
  suffices h : ∀ init : List Event, a ∈ A.foldl (fun s e => s.insert e.event) init ↔
      a ∈ init ∨ a ∈ A.map (·.event) by
    rw [h []]; simp
  induction A with
  | nil => intro init; simp
  | cons x xs ih =>
    intro init
    rw [List.foldl_cons, ih, List.mem_insert_iff, List.map_cons, List.mem_cons]
    tauto

theorem not_contains_eq {α : Type} [DecidableEq α] (s : List α) (a : α) (p : Prop)
    [Decidable p] (h : a ∈ s ↔ p) : (! s.contains a) = decide ¬p := by
  by_cases hp : p
  · have hc : s.contains a = true := List.elem_iff.mpr (h.mpr hp)
    have hd : decide (¬p) = false := decide_eq_false (fun hnp => hnp hp)
    rw [hc, hd]
    rfl
  · have hc : s.contains a = false := by
      rw [Bool.eq_false_iff]
      intro hcc
      exact hp (h.mp (List.elem_iff.mp hcc))
    have hd : decide (¬p) = true := decide_eq_true hp
    rw [hc, hd]
    rfl

/-- `find_diff` computes exactly the two value-difference filters. -/
theorem find_diff_eq (A : List EventWithCaldavUid) (B : List Event) :
    (find_diff A B).1 = A.filter (fun e => decide (e.event ∉ B)) ∧
    (find_diff A B).2 = B.filter (fun ev => decide (ev ∉ A.map (·.event))) := by
  unfold find_diff
  constructor
  · apply List.filter_congr
    intro x _
    exact not_contains_eq (target_set B) x.event _ (mem_target_set B x.event)
  · apply List.filter_congr
    intro x _
    exact not_contains_eq (current_set A) x _ (mem_current_set A x)

/-! ### Claim C1 -/

/-- C1: `find_diff(A, B)` returns `toDelete` containing exactly the mirror
entries whose underlying event value (start, end, summary) does not occur
in `B` — the value-difference A∖B — and `toCreate` containing exactly the
source events whose value does not occur among `A`'s underlying events —
B∖A — and `find_diff(A, A) = ([], [])`. -/
theorem find_diff_value_difference (A : List EventWithCaldavUid) (B : List Event) :
    (find_diff A B).1 = A.filter (fun e => decide (e.event ∉ B)) ∧
    (find_diff A B).2 = B.filter (fun ev => decide (ev ∉ A.map (·.event))) ∧
    find_diff A (A.map (·.event)) = ([], []) := by
  refine ⟨(find_diff_eq A B).1, (find_diff_eq A B).2, ?_⟩
  have h := find_diff_eq A (A.map (·.event))
  have h1 : (find_diff A (A.map (·.event))).1 = [] := by
    rw [h.1]
    apply List.filter_eq_nil_iff.mpr
    intro a ha
    simp only [decide_eq_true_eq, Decidable.not_not]
    exact List.mem_map_of_mem _ ha
  have h2 : (find_diff A (A.map (·.event))).2 = [] := by
    rw [h.2]
    apply List.filter_eq_nil_iff.mpr
    intro a ha
    simp only [decide_eq_true_eq, Decidable.not_not]
    exact ha
  exact Prod.ext_iff.mpr ⟨h1, h2⟩

/-! ### Claim C9 -/

theorem map_event_filter (A : List EventWithCaldavUid) (p : Event → Bool) :
    (A.filter (fun e => p e.event)).map (·.event) = (A.map (·.event)).filter p := by
  induction A with
  | nil => rfl
  | cons x xs ih =>
    by_cases h : p x.event
    · simp only [List.filter_cons, h, if_true, List.map_cons, ih]
    · simp only [List.filter_cons, h, if_false, List.map_cons, ih, Bool.false_eq_true]

/-- C9: mirror identifiers never affect diffing — for mirror lists that are
identical except for `caldav_uid` values (same underlying event values,
pointwise), `find_diff` returns the same `toDelete` event values at the
same positions and the same `toCreate` list. -/
theorem find_diff_ignores_uids (A A' : List EventWithCaldavUid) (B : List Event)
    (h : A.map (·.event) = A'.map (·.event)) :
    (find_diff A B).1.map (·.event) = (find_diff A' B).1.map (·.event) ∧
    (find_diff A B).2 = (find_diff A' B).2 := by
  constructor
  · rw [(find_diff_eq A B).1, (find_diff_eq A' B).1,
      map_event_filter A (fun ev => decide (ev ∉ B)),
      map_event_filter A' (fun ev => decide (ev ∉ B)), h]
  · rw [(find_diff_eq A B).2, (find_diff_eq A' B).2, h]

/-- Witness for C9 at a concrete input: renaming the single mirror uid from
"u1" to "v9" leaves both components of the diff unchanged. -/
theorem find_diff_ignores_uids_witness :
    (find_diff [⟨"u1", ⟨0, 1, "a"⟩⟩] [⟨5, 6, "b"⟩]).1.map (·.event) =
      (find_diff [⟨"v9", ⟨0, 1, "a"⟩⟩] [⟨5, 6, "b"⟩]).1.map (·.event) ∧
    (find_diff [⟨"u1", ⟨0, 1, "a"⟩⟩] [⟨5, 6, "b"⟩]).2 =
      (find_diff [⟨"v9", ⟨0, 1, "a"⟩⟩] [⟨5, 6, "b"⟩]).2 :=
  find_diff_ignores_uids _ _ _ (by decide)

/-! ### Claim C8 -/

/-- C8 counterexample: the claim "the result of `find_diff(A, B)` is
determined only by the sets of distinct event values in `A` and `B`" is
false — two mirror lists with the same set of distinct values but
different multiplicities give different `toDelete` lists. -/
theorem find_diff_multiplicity_counterexample :
    ¬ ∀ (A A' : List EventWithCaldavUid) (B B' : List Event),
        (∀ x : Event, x ∈ A.map (·.event) ↔ x ∈ A'.map (·.event)) →
        (∀ x : Event, x ∈ B ↔ x ∈ B') →
        find_diff A B = find_diff A' B' := by
  intro hall
  have h := hall [⟨"u1", ⟨0, 1, "x"⟩⟩, ⟨"u2", ⟨0, 1, "x"⟩⟩] [⟨"u1", ⟨0, 1, "x"⟩⟩]
    [] []
    (by
      intro x
      simp only [List.map_cons, List.map_nil, List.mem_cons, List.not_mem_nil,
        or_false]
      tauto)
    (fun x => Iff.rfl)
  exact absurd h (by decide)

/-- C8 amended: duplicate event values collapse under set semantics in the
membership tests of `find_diff`: `toDelete` depends on the source list only
through its set of values, `toCreate` depends on the mirror list only
through its set of underlying values, and two content-identical mirror
entries are staged (or not staged) together — but the returned lists keep
one entry per occurrence, so multiplicity inside a list is preserved. -/
theorem find_diff_set_semantics (A A' : List EventWithCaldavUid) (B B' : List Event)
    (hA : ∀ x : Event, x ∈ A.map (·.event) ↔ x ∈ A'.map (·.event))
    (hB : ∀ x : Event, x ∈ B ↔ x ∈ B') :
    (find_diff A B).1 = (find_diff A B').1 ∧
    (find_diff A B).2 = (find_diff A' B).2 ∧
    (∀ e₁ e₂ : EventWithCaldavUid, e₁ ∈ A → e₂ ∈ A → e₁.event = e₂.event →
      (e₁ ∈ (find_diff A B).1 ↔ e₂ ∈ (find_diff A B).1)) := by
  refine ⟨?_, ?_, ?_⟩
  · rw [(find_diff_eq A B).1, (find_diff_eq A B').1]
    apply List.filter_congr
    intro x _
    exact decide_eq_decide.mpr (not_congr (hB x.event))
  · rw [(find_diff_eq A B).2, (find_diff_eq A' B).2]
    apply List.filter_congr
    intro x _
    exact decide_eq_decide.mpr (not_congr (by rw [hA x]))
  · intro e₁ e₂ h₁ h₂ hev
    rw [(find_diff_eq A B).1, List.mem_filter, List.mem_filter, hev]
    exact ⟨fun ⟨_, hp⟩ => ⟨h₂, hp⟩, fun ⟨_, hp⟩ => ⟨h₁, hp⟩⟩

/-- Witness for C8's amended statement at a concrete input: a duplicated
mirror value, a deduplicated source, and two duplicated mirror entries
staged together. -/
theorem find_diff_set_semantics_witness :
    (find_diff [⟨"u1", ⟨0, 1, "x"⟩⟩, ⟨"u2", ⟨0, 1, "x"⟩⟩] [⟨5, 6, "y"⟩, ⟨5, 6, "y"⟩]).1 =
      (find_diff [⟨"u1", ⟨0, 1, "x"⟩⟩, ⟨"u2", ⟨0, 1, "x"⟩⟩] [⟨5, 6, "y"⟩]).1 ∧
    (find_diff [⟨"u1", ⟨0, 1, "x"⟩⟩, ⟨"u2", ⟨0, 1, "x"⟩⟩] [⟨5, 6, "y"⟩, ⟨5, 6, "y"⟩]).2 =
      (find_diff [⟨"u3", ⟨0, 1, "x"⟩⟩] [⟨5, 6, "y"⟩, ⟨5, 6, "y"⟩]).2 ∧
    (∀ e₁ e₂ : EventWithCaldavUid,
      e₁ ∈ [⟨"u1", ⟨0, 1, "x"⟩⟩, ⟨"u2", (⟨0, 1, "x"⟩ : Event)⟩] →
      e₂ ∈ [⟨"u1", ⟨0, 1, "x"⟩⟩, ⟨"u2", (⟨0, 1, "x"⟩ : Event)⟩] →
      e₁.event = e₂.event →
      (e₁ ∈ (find_diff [⟨"u1", ⟨0, 1, "x"⟩⟩, ⟨"u2", ⟨0, 1, "x"⟩⟩]
          [⟨5, 6, "y"⟩, ⟨5, 6, "y"⟩]).1 ↔
        e₂ ∈ (find_diff [⟨"u1", ⟨0, 1, "x"⟩⟩, ⟨"u2", ⟨0, 1, "x"⟩⟩]
          [⟨5, 6, "y"⟩, ⟨5, 6, "y"⟩]).1)) :=
  find_diff_set_semantics _ _ _ _
    (by
      intro x
      simp only [List.map_cons, List.map_nil, List.mem_cons, List.not_mem_nil,
        or_false]
      tauto)
    (by
      intro x
      simp only [List.mem_cons, List.not_mem_nil, or_false]
      tauto)

/-! ### Claim C2 -/

/-- A concrete environment for the sync driver: the mirror holds two stale
events, the source is empty, and deleting the second stale event fails. -/
def failingWorld : SyncWorld where
  caldavOk := true
  caldavEvents := [⟨"u1", ⟨0, 1, "a"⟩⟩, ⟨"u2", ⟨2, 3, "b"⟩⟩]
  googleOk := true
  googleEvents := []
  deleteOk := fun e => e.caldav_uid == "u1"
  createOk := fun _ => true

/-- C2 counterexample: in `failingWorld` the first deletion is applied and
the second fails, so the cycle fails *after* applying a partial result, and
the propagated error terminates the process at the first tick — the next
scheduled tick does not occur, contradicting both "aborts without applying
partial results" and "a single failed cycle never terminates the
long-running process". -/
theorem sync_failure_terminates_counterexample :
    sync failingWorld =
      ([.delete ⟨"u1", ⟨0, 1, "a"⟩⟩], some (.deleteError "u2")) ∧
    mainLoop failingWorld 1 = .terminated (.deleteError "u2") ∧
    mainLoop failingWorld 2 = .terminated (.deleteError "u2") := by
  refine ⟨by decide, by decide, by decide⟩

/-- C2 amended: when any step of a sync cycle fails, `sync` stops at the
failing step and returns the error; operations applied before the failure
remain applied (a failed fetch applies nothing), and the error propagates
out of the main loop, terminating the process at that tick — no further
tick runs a cycle. -/
theorem sync_error_terminates_process (w : SyncWorld) (e : SyncError)
    (h : (sync w).2 = some e) :
    (∀ n : Nat, 1 ≤ n → mainLoop w n = .terminated e) ∧
    (w.caldavOk = false → sync w = ([], some .caldavFetchError)) ∧
    (w.caldavOk = true → w.googleOk = false →
      sync w = ([], some .googleFetchError)) := by
  refine ⟨?_, ?_, ?_⟩
  · intro n hn
    induction n with
    | zero => omega
    | succ m ih =>
      rw [mainLoop]
      match hm : m with
      | 0 =>
        rw [mainLoop]
        rw [h]
      | k + 1 =>
        rw [ih (by omega)]
  · intro hc
    unfold sync
    rw [hc]
    rfl
  · intro hc hg
    unfold sync
    rw [hc, hg]
    rfl

/-- Witness for C2's amended statement: in `failingWorld` the process is
terminated from the first tick on. -/
theorem sync_error_terminates_process_witness :
    (∀ n : Nat, 1 ≤ n →
      mainLoop failingWorld n = .terminated (.deleteError "u2")) ∧
    (failingWorld.caldavOk = false →
      sync failingWorld = ([], some .caldavFetchError)) ∧
    (failingWorld.caldavOk = true → failingWorld.googleOk = false →
      sync failingWorld = ([], some .googleFetchError)) :=
  sync_error_terminates_process failingWorld (.deleteError "u2") (by decide)

/-! ### Claim C7 -/

/-- C7 counterexample: an item whose first attendee has accepted but whose
second attendee has declined is excluded by `fetch_google_events`'
attendance filter, although the claim says only the first-listed attendee's
status is inspected ("regardless of other attendees' statuses"). -/
theorem attendance_filter_counterexample :
    convert_google_event
      ⟨some ⟨some 0⟩, some ⟨some 60⟩, some "m",
        some [⟨some "accepted"⟩, ⟨some "declined"⟩]⟩ = none ∧
    ([(⟨some "accepted"⟩ : GEventAttendee), ⟨some "declined"⟩]).head? =
      some ⟨some "accepted"⟩ :=
  ⟨by decide, by decide⟩

/-- Reduction of `convert_google_event` on an item with all fields present. -/
theorem convert_google_event_complete (g : GEvent) (sdt edt : GEventDateTime)
    (st en : Int) (sum : String)
    (hs : g.start = some sdt) (hst : sdt.date_time = some st)
    (he : g.end_ = some edt) (het : edt.date_time = some en)
    (hsum : g.summary = some sum) :
    convert_google_event g =
      if (g.attendees.getD []).any
          (fun a => a.response_status == some "declined") then none
      else some ⟨st, en, sum⟩ := by
  unfold convert_google_event
  rw [hs, he, hsum]
  simp only [Option.bind_eq_bind, Option.some_bind, hst, het]
  rfl

/-- C7 amended: the attendance filter excludes an item exactly when *any*
listed attendee's response status equals "declined" (the query's
`max_attendees(1)` cap means real responses carry at most one attendee, on
which this coincides with inspecting the first); items with no attendee
list pass through. -/
theorem attendance_filter_any_declined (g : GEvent) (sdt edt : GEventDateTime)
    (st en : Int) (sum : String)
    (hs : g.start = some sdt) (hst : sdt.date_time = some st)
    (he : g.end_ = some edt) (het : edt.date_time = some en)
    (hsum : g.summary = some sum) :
    (convert_google_event g = none ↔
      (g.attendees.getD []).any
        (fun a => a.response_status == some "declined") = true) ∧
    (g.attendees = none → convert_google_event g = some ⟨st, en, sum⟩) ∧
    (∀ a : GEventAttendee, g.attendees = some [a] →
      (convert_google_event g = none ↔ a.response_status = some "declined")) := by
  have hconv := convert_google_event_complete g sdt edt st en sum hs hst he het hsum
  rw [hconv]
  by_cases hAny : (g.attendees.getD []).any
      (fun a => a.response_status == some "declined") = true
  · rw [if_pos hAny]
    refine ⟨⟨fun _ => hAny, fun _ => rfl⟩, ?_, ?_⟩
    · intro hnone
      rw [hnone] at hAny
      simp at hAny
    · intro a ha
      rw [ha] at hAny
      simp only [Option.getD_some, List.any_cons, List.any_nil,
        Bool.or_false] at hAny
      exact ⟨fun _ => beq_iff_eq.mp hAny, fun _ => rfl⟩
  · rw [if_neg hAny]
    refine ⟨⟨fun hcon => absurd hcon (by simp), fun hcon => absurd hcon hAny⟩,
      fun _ => rfl, ?_⟩
    intro a ha
    rw [ha] at hAny
    simp only [Option.getD_some, List.any_cons, List.any_nil,
      Bool.or_false] at hAny
    constructor
    · intro hcon
      exact absurd hcon (by simp)
    · intro hdecl
      exact absurd (beq_iff_eq.mpr hdecl) hAny

/-- Witness for C7's amended statement at a concrete single-attendee item:
a declined single attendee excludes the event, and the item with no
attendee list passes through. -/
theorem attendance_filter_any_declined_witness :
    (convert_google_event
        ⟨some ⟨some 0⟩, some ⟨some 60⟩, some "m", some [⟨some "declined"⟩]⟩ = none ↔
      ((some [(⟨some "declined"⟩ : GEventAttendee)]).getD []).any
        (fun a => a.response_status == some "declined") = true) ∧
    ((some [(⟨some "declined"⟩ : GEventAttendee)]) = none →
      convert_google_event
        ⟨some ⟨some 0⟩, some ⟨some 60⟩, some "m", some [⟨some "declined"⟩]⟩ =
        some ⟨0, 60, "m"⟩) ∧
    (∀ a : GEventAttendee,
      (some [(⟨some "declined"⟩ : GEventAttendee)]) = some [a] →
      (convert_google_event
          ⟨some ⟨some 0⟩, some ⟨some 60⟩, some "m", some [⟨some "declined"⟩]⟩ = none ↔
        a.response_status = some "declined")) :=
  attendance_filter_any_declined _ _ _ _ _ _ rfl rfl rfl rfl rfl

/-! ### Claim C10 -/

/-- C10: a source item whose start date-time, end date-time, or summary is
absent is silently excluded: the fetch still succeeds and returns exactly
the conversion of the remaining items, with no error value for the dropped
item (the only error of this stage is an absent item list). -/
theorem google_incomplete_item_silently_dropped (xs ys : List GEvent) (g : GEvent)
    (h : g.start = none ∨ (∃ sdt, g.start = some sdt ∧ sdt.date_time = none) ∨
         g.end_ = none ∨ (∃ edt, g.end_ = some edt ∧ edt.date_time = none) ∨
         g.summary = none) :
    fetch_google_events (some (xs ++ g :: ys)) =
      fetch_google_events (some (xs ++ ys)) ∧
    fetch_google_events (some (xs ++ g :: ys)) =
      .ok ((xs ++ ys).filterMap convert_google_event) := by
  have hg : convert_google_event g = none := by
    unfold convert_google_event
    split
    · rfl
    · rcases h with h | ⟨sdt, h1, h2⟩ | h | ⟨edt, h1, h2⟩ | h
      · rw [h]; rfl
      · rw [h1]
        simp only [Option.bind_eq_bind, Option.some_bind, h2, Option.none_bind]
      · rw [h]
        cases hgs : g.start with
        | none => rfl
        | some sdt =>
          simp only [Option.bind_eq_bind, Option.some_bind]
          cases sdt.date_time <;> rfl
      · rw [h1]
        cases hgs : g.start with
        | none => rfl
        | some sdt =>
          simp only [Option.bind_eq_bind, Option.some_bind]
          cases hdt : sdt.date_time with
          | none => rfl
          | some st =>
            simp only [Option.some_bind, h2, Option.none_bind]
      · cases hgs : g.start with
        | none => rfl
        | some sdt =>
          simp only [Option.bind_eq_bind, Option.some_bind]
          cases hdt : sdt.date_time with
          | none => rfl
          | some st =>
            simp only [Option.some_bind]
            cases hge : g.end_ with
            | none => rfl
            | some edt =>
              simp only [Option.some_bind]
              cases het : edt.date_time with
              | none => rfl
              | some en =>
                simp only [Option.some_bind, h, Option.none_bind]
  constructor
  · show Except.ok ((xs ++ g :: ys).filterMap convert_google_event) =
      Except.ok ((xs ++ ys).filterMap convert_google_event)
    rw [List.filterMap_append, List.filterMap_cons, hg, List.filterMap_append]
  · show Except.ok ((xs ++ g :: ys).filterMap convert_google_event) =
      Except.ok ((xs ++ ys).filterMap convert_google_event)
    rw [List.filterMap_append, List.filterMap_cons, hg, List.filterMap_append]

/-- A complete source item used by witnesses. -/
def gItemA : GEvent := ⟨some ⟨some 0⟩, some ⟨some 60⟩, some "a", none⟩

/-- A date-only (all-day) source item: `start.date_time` absent. -/
def gItemAllday : GEvent := ⟨some ⟨none⟩, some ⟨some 120⟩, some "allday", none⟩

/-- Another complete source item used by witnesses. -/
def gItemB : GEvent := ⟨some ⟨some 200⟩, some ⟨some 260⟩, some "b", none⟩

/-- Witness for C10 at a concrete input: an item with a date-only start
(no `dateTime`) disappears without a trace. -/
theorem google_incomplete_item_silently_dropped_witness :
    fetch_google_events (some ([gItemA] ++ gItemAllday :: [gItemB])) =
      fetch_google_events (some ([gItemA] ++ [gItemB])) ∧
    fetch_google_events (some ([gItemA] ++ gItemAllday :: [gItemB])) =
      .ok (([gItemA] ++ [gItemB]).filterMap convert_google_event) :=
  google_incomplete_item_silently_dropped [gItemA] [gItemB] gItemAllday
    (Or.inr (Or.inl ⟨⟨none⟩, rfl, rfl⟩))

/-! ### Claim C6 -/

/-- C6: an event whose start property carries only a date (no time-of-day)
never appears in either adapter's output: a block whose `DTSTART` value has
no `T` is not retained by the mirror-side decode; every mirror-side output
comes from a retained block, whose `DTSTART` value therefore contains `T`;
a source item whose start carries no `date_time` is dropped; and every
source-side output event's start stems from an item's `start.date_time`. -/
theorem allday_events_filtered :
    (∀ (doc : Ical) (b : Ical) (p : ICalProperty),
      get_ical_property b "DTSTART" = some p →
      p.value.data.contains 'T' = false →
      b ∉ retainedEvents doc) ∧
    (∀ (tzdb : String → Option TzModel) (doc : Ical) (ev : EventWithCaldavUid),
      ev ∈ (fetch_caldav_events tzdb doc).1 →
      ∃ b ∈ retainedEvents doc, ∃ p, get_ical_property b "DTSTART" = some p ∧
        p.value.data.contains 'T' = true) ∧
    (∀ (g : GEvent) (sdt : GEventDateTime), g.start = some sdt →
      sdt.date_time = none → convert_google_event g = none) ∧
    (∀ (items : List GEvent) (ev : Event),
      ev ∈ items.filterMap convert_google_event →
      ∃ g ∈ items, ∃ sdt, g.start = some sdt ∧ sdt.date_time = some ev.start) := by
  refine ⟨?_, ?_, ?_, ?_⟩
  · intro doc b p hp hnoT hmem
    unfold retainedEvents at hmem
    rw [List.mem_filter] at hmem
    obtain ⟨-, hpred⟩ := hmem
    rw [hp] at hpred
    simp only at hpred
    rw [hnoT] at hpred
    exact Bool.false_ne_true hpred
  · intro tzdb doc ev hmem
    obtain ⟨b, hbmem, hconv⟩ := List.mem_filterMap.mp hmem
    refine ⟨b, hbmem, ?_⟩
    unfold retainedEvents at hbmem
    rw [List.mem_filter] at hbmem
    obtain ⟨-, hpred⟩ := hbmem
    cases hget : get_ical_property b "DTSTART" with
    | none => rw [hget] at hpred; simp at hpred
    | some p =>
      rw [hget] at hpred
      simp only at hpred
      exact ⟨p, rfl, hpred⟩
  · intro g sdt hs hdt
    unfold convert_google_event
    split
    · rfl
    · rw [hs]
      simp only [Option.bind_eq_bind, Option.some_bind, hdt, Option.none_bind]
  · intro items ev hmem
    obtain ⟨g, hg, hconv⟩ := List.mem_filterMap.mp hmem
    refine ⟨g, hg, ?_⟩
    unfold convert_google_event at hconv
    split at hconv
    · exact absurd hconv (by simp)
    · cases hgs : g.start with
      | none => rw [hgs] at hconv; simp at hconv
      | some sdt =>
        rw [hgs] at hconv
        simp only [Option.bind_eq_bind, Option.some_bind] at hconv
        cases hdt : sdt.date_time with
        | none => rw [hdt] at hconv; simp at hconv
        | some st =>
          rw [hdt] at hconv
          simp only [Option.some_bind] at hconv
          refine ⟨sdt, rfl, ?_⟩
          cases hge : g.end_ with
          | none => rw [hge] at hconv; simp at hconv
          | some edt =>
            rw [hge] at hconv
            simp only [Option.some_bind] at hconv
            cases het : edt.date_time with
            | none => rw [het] at hconv; simp at hconv
            | some en =>
              rw [het] at hconv
              simp only [Option.some_bind] at hconv
              cases hsum : g.summary with
              | none => rw [hsum] at hconv; simp at hconv
              | some sum =>
                rw [hsum] at hconv
                simp only [Option.some_bind] at hconv
                have hev : ev = ⟨st, en, sum⟩ := (Option.some.inj hconv).symm
                rw [hev]
                exact hdt

/-- Witness for C6 at a concrete input: the date-only source item is
dropped by the conversion. -/
theorem allday_events_filtered_witness :
    convert_google_event gItemAllday = none :=
  allday_events_filtered.2.2.1 gItemAllday ⟨none⟩ rfl rfl

/-! ### Claim C5 -/

/-- The retention test of `fetch_caldav_events` for a single block: an
event block whose `DTSTART` exists and carries a time component. -/
def isRetained (b : Ical) : Bool :=
  b.name == "VEVENT" &&
    (match get_ical_property b "DTSTART" with
     | some prop => prop.value.data.contains 'T'
     | none => false)

theorem retainedEvents_append (n : String) (ps : List ICalProperty)
    (xs ys : List Ical) :
    retainedEvents (.mk n ps (xs ++ ys)) =
      retainedEvents (.mk n ps xs) ++ retainedEvents (.mk n ps ys) := by
  unfold retainedEvents
  simp only [Ical.children, List.filter_append]

theorem retainedEvents_cons (n : String) (ps : List ICalProperty)
    (b : Ical) (ys : List Ical) :
    retainedEvents (.mk n ps (b :: ys)) =
      (if isRetained b then [b] else []) ++ retainedEvents (.mk n ps ys) := by
  unfold retainedEvents isRetained
  simp only [Ical.children, List.filter_cons]
  by_cases h1 : (b.name == "VEVENT") = true
  · rw [if_pos h1, List.filter_cons]
    by_cases h2 : (match get_ical_property b "DTSTART" with
        | some prop => prop.value.data.contains 'T'
        | none => false) = true
    · rw [if_pos h2, if_pos (by rw [h1, h2]; rfl)]
      rfl
    · rw [if_neg h2, if_neg (by rw [h1]; simpa using h2)]
      rfl
  · rw [if_neg h1, if_neg (by rw [Bool.and_eq_true]; intro hc; exact h1 hc.1)]
    rfl

/-- C5 counterexample pieces: a well-formed event block and one missing its
`DTSTART` property. -/
def goodVEvent : Ical := .mk "VEVENT"
  [⟨"UID", "g1", []⟩, ⟨"SUMMARY", "good", []⟩,
   ⟨"DTSTART", "20240101T100000Z", []⟩, ⟨"DTEND", "20240101T110000Z", []⟩] []

/-- A VEVENT with no `DTSTART` property at all. -/
def noStartVEvent : Ical := .mk "VEVENT"
  [⟨"UID", "b1", []⟩, ⟨"SUMMARY", "bad", []⟩] []

/-- A retained VEVENT missing its `SUMMARY` property. -/
def noSummaryVEvent : Ical := .mk "VEVENT"
  [⟨"UID", "b2", []⟩, ⟨"DTSTART", "20240101T100000Z", []⟩,
   ⟨"DTEND", "20240101T110000Z", []⟩] []

/-- C5 counterexample: a record missing its required start property does
*not* yield a per-event error — it is silently filtered out before
decoding. The well-formed remainder is still returned, but the claim's
"missing ... start ... yields a per-event error" is false on this input:
the error list is empty. -/
theorem fetch_caldav_missing_start_silent :
    fetch_caldav_events tzdb0 (.mk "VCALENDAR" [] [goodVEvent, noStartVEvent]) =
      ([⟨"g1", ⟨1704103200, 1704106800, "good"⟩⟩], []) ∧
    get_ical_property noStartVEvent "DTSTART" = none :=
  ⟨by decide, by decide⟩

/-- C5 amended: a *retained* record (a VEVENT whose `DTSTART` exists and
has a time component) that fails to decode — missing UID, SUMMARY or
DTEND, or an unresolvable timestamp — yields exactly one logged per-event
error and is skipped, leaving the events decoded from the rest of the
document unchanged; a block that is not retained (in particular one whose
`DTSTART` property is missing) is silently dropped, contributing neither
an event nor an error; decoding never aborts the whole document. -/
theorem fetch_caldav_skip_and_continue (tzdb : String → Option TzModel)
    (n : String) (ps : List ICalProperty) (xs ys : List Ical) (b : Ical)
    (err : DecodeErrorKind)
    (hfail : decode_caldav_event tzdb b = .error err) :
    (fetch_caldav_events tzdb (.mk n ps (xs ++ b :: ys))).1 =
      (fetch_caldav_events tzdb (.mk n ps (xs ++ ys))).1 ∧
    (isRetained b = true →
      (fetch_caldav_events tzdb (.mk n ps (xs ++ b :: ys))).2 =
        (fetch_caldav_events tzdb (.mk n ps xs)).2 ++
          err :: (fetch_caldav_events tzdb (.mk n ps ys)).2) ∧
    (isRetained b = false →
      (fetch_caldav_events tzdb (.mk n ps (xs ++ b :: ys))).2 =
        (fetch_caldav_events tzdb (.mk n ps xs)).2 ++
          (fetch_caldav_events tzdb (.mk n ps ys)).2) ∧
    (get_ical_property b "DTSTART" = none → isRetained b = false) := by
  have hsplit : retainedEvents (.mk n ps (xs ++ b :: ys)) =
      retainedEvents (.mk n ps xs) ++
        ((if isRetained b then [b] else []) ++ retainedEvents (.mk n ps ys)) := by
    have h1 : xs ++ b :: ys = xs ++ (b :: ys) := rfl
    rw [h1, retainedEvents_append, retainedEvents_cons]
  refine ⟨?_, ?_, ?_, ?_⟩
  · show (retainedEvents (.mk n ps (xs ++ b :: ys))).filterMap
        (fun ev => (decode_caldav_event tzdb ev).toOption) = _
    rw [hsplit]
    by_cases hr : isRetained b
    · rw [if_pos hr]
      show (_ ++ (b :: _)).filterMap _ = _
      rw [List.filterMap_append, List.filterMap_cons, hfail]
      show _ = (retainedEvents (.mk n ps (xs ++ ys))).filterMap _
      rw [retainedEvents_append, List.filterMap_append]
      rfl
    · rw [if_neg hr]
      show (_ ++ ([] ++ _)).filterMap _ = _
      rw [List.nil_append]
      show _ = (retainedEvents (.mk n ps (xs ++ ys))).filterMap _
      rw [retainedEvents_append]
  · intro hr
    show (retainedEvents (.mk n ps (xs ++ b :: ys))).filterMap _ = _
    rw [hsplit, if_pos hr]
    show (_ ++ (b :: _)).filterMap _ = _
    rw [List.filterMap_append, List.filterMap_cons, hfail]
    rfl
  · intro hr
    show (retainedEvents (.mk n ps (xs ++ b :: ys))).filterMap _ = _
    rw [hsplit, if_neg (by rw [hr]; exact Bool.false_ne_true)]
    show (_ ++ ([] ++ _)).filterMap _ = _
    rw [List.nil_append, List.filterMap_append]
    rfl
  · intro hnone
    unfold isRetained
    rw [hnone]
    simp

/-- Witness for C5's amended statement at a concrete document: a retained
block missing `SUMMARY` logs exactly one per-event error and is skipped,
while the well-formed block is still decoded. -/
theorem fetch_caldav_skip_and_continue_witness :
    (fetch_caldav_events tzdb0
        (.mk "VCALENDAR" [] ([goodVEvent] ++ noSummaryVEvent :: []))).1 =
      (fetch_caldav_events tzdb0 (.mk "VCALENDAR" [] ([goodVEvent] ++ []))).1 ∧
    (isRetained noSummaryVEvent = true →
      (fetch_caldav_events tzdb0
          (.mk "VCALENDAR" [] ([goodVEvent] ++ noSummaryVEvent :: []))).2 =
        (fetch_caldav_events tzdb0 (.mk "VCALENDAR" [] [goodVEvent])).2 ++
          DecodeErrorKind.missingProp "SUMMARY" ::
            (fetch_caldav_events tzdb0 (.mk "VCALENDAR" [] [])).2) ∧
    (isRetained noSummaryVEvent = false →
      (fetch_caldav_events tzdb0
          (.mk "VCALENDAR" [] ([goodVEvent] ++ noSummaryVEvent :: []))).2 =
        (fetch_caldav_events tzdb0 (.mk "VCALENDAR" [] [goodVEvent])).2 ++
          (fetch_caldav_events tzdb0 (.mk "VCALENDAR" [] [])).2) ∧
    (get_ical_property noSummaryVEvent "DTSTART" = none →
      isRetained noSummaryVEvent = false) :=
  fetch_caldav_skip_and_continue tzdb0 "VCALENDAR" [] [goodVEvent] []
    noSummaryVEvent (.missingProp "SUMMARY") (by decide)

/-! ### Claim C4 -/

theorem fmtInstantChars_contains_T (t : Int) :
    (fmtInstantChars t).contains 'T' = true := by
  refine List.elem_iff.mpr ?_
  unfold fmtInstantChars fmtCivilChars
  simp

/-- The canonical absolute-UTC pattern `YYYYMMDDTHHMMSSZ`: 16 characters,
14 decimal digits, `T` at index 8 and a trailing `Z`. -/
def isCanonicalUtcValue (cs : List Char) : Bool :=
  match cs with
  | [y1, y2, y3, y4, m1, m2, d1, d2, tc, h1, h2, mi1, mi2, s1, s2, zc] =>
    isDigitChar y1 && isDigitChar y2 && isDigitChar y3 && isDigitChar y4 &&
    isDigitChar m1 && isDigitChar m2 && isDigitChar d1 && isDigitChar d2 &&
    tc == 'T' &&
    isDigitChar h1 && isDigitChar h2 && isDigitChar mi1 && isDigitChar mi2 &&
    isDigitChar s1 && isDigitChar s2 && zc == 'Z'
  | _ => false

theorem fmtInstantChars_canonical (t : Int) (h0 : 0 ≤ t) (h1 : t < 253402300800) :
    isCanonicalUtcValue (fmtInstantChars t) = true := by
  have hy := epochToCivil_year_range t h0 h1
  have hv := validCivil_epochToCivil t
  unfold validCivil at hv
  obtain ⟨v1, v2, v3, v4, v5, v6, v7, v8, v9, v10⟩ := hv
  simp only [fmtInstantChars, fmtCivilChars, fmt4, fmt2, List.cons_append,
    List.nil_append, isCanonicalUtcValue, Bool.and_eq_true, beq_self_eq_true,
    and_true]
  refine ⟨⟨⟨⟨⟨⟨⟨⟨⟨⟨⟨⟨⟨?_, ?_⟩, ?_⟩, ?_⟩, ?_⟩, ?_⟩, ?_⟩, ?_⟩, ?_⟩, ?_⟩, ?_⟩, ?_⟩, ?_⟩, ?_⟩ <;>
    exact isDigitChar_digitChar _ (by omega) (by omega)

/-- `parse_ical_datetime` inverts the `%Y%m%dT%H%M%SZ` rendering of any
instant with a 4-digit year, for any timezone database. -/
theorem parse_fmt_utc (tzdb : String → Option TzModel) (p : ICalProperty)
    (t : Int) (hv : p.value.data = fmtInstantChars t)
    (h0 : 0 ≤ t) (h1 : t < 253402300800) :
    parse_ical_datetime tzdb p = .ok t := by
  unfold parse_ical_datetime
  rw [hv]
  rw [if_pos (by unfold fmtInstantChars; exact List.getLast?_concat _)]
  rw [parseZChars_fmtInstantChars t h0 h1]
  show Except.ok (epochOfCivil (epochToCivil t)) = Except.ok t
  rw [epochOfCivil_epochToCivil]

/-- C4: the record produced by `Event::to_ical` contains exactly the fields
UID, SUMMARY, DTSTART, DTEND inside a single VEVENT, both timestamps in the
canonical absolute-UTC pattern `YYYYMMDDTHHMMSSZ`, and decoding it through
the mirror-side pipeline (`fetch_caldav_events`, hence property lookup and
`parse_ical_datetime`) reproduces the event's start instant, end instant
and summary exactly, under any timezone database. The year-range hypothesis
(0..9999, i.e. instants this system can produce with 4-digit rendering)
bounds the instants. -/
theorem to_ical_roundtrip (e : Event) (uid : String)
    (tzdb : String → Option TzModel)
    (hs0 : 0 ≤ e.start) (hs1 : e.start < 253402300800)
    (he0 : 0 ≤ e.end_) (he1 : e.end_ < 253402300800) :
    fetch_caldav_events tzdb (e.to_ical uid) = ([⟨uid, e⟩], []) ∧
    (e.to_ical uid).children.map Ical.name = ["VEVENT"] ∧
    (e.to_ical uid).children.map (fun ve => ve.properties.map (·.name)) =
      [["UID", "SUMMARY", "DTSTART", "DTEND"]] ∧
    isCanonicalUtcValue (fmtInstantChars e.start) = true ∧
    isCanonicalUtcValue (fmtInstantChars e.end_) = true := by
  have hdec : decode_caldav_event tzdb
      (.mk "VEVENT"
        [⟨"UID", uid, []⟩, ⟨"SUMMARY", e.summary, []⟩,
         ⟨"DTSTART", String.mk (fmtInstantChars e.start), []⟩,
         ⟨"DTEND", String.mk (fmtInstantChars e.end_), []⟩] []) = .ok ⟨uid, e⟩ := by
    unfold decode_caldav_event
    simp only [show get_ical_property
        (.mk "VEVENT"
          [⟨"UID", uid, []⟩, ⟨"SUMMARY", e.summary, []⟩,
           ⟨"DTSTART", String.mk (fmtInstantChars e.start), []⟩,
           ⟨"DTEND", String.mk (fmtInstantChars e.end_), []⟩] []) "UID" =
        some ⟨"UID", uid, []⟩ from rfl,
      show get_ical_property
        (.mk "VEVENT"
          [⟨"UID", uid, []⟩, ⟨"SUMMARY", e.summary, []⟩,
           ⟨"DTSTART", String.mk (fmtInstantChars e.start), []⟩,
           ⟨"DTEND", String.mk (fmtInstantChars e.end_), []⟩] []) "DTSTART" =
        some ⟨"DTSTART", String.mk (fmtInstantChars e.start), []⟩ from rfl,
      show get_ical_property
        (.mk "VEVENT"
          [⟨"UID", uid, []⟩, ⟨"SUMMARY", e.summary, []⟩,
           ⟨"DTSTART", String.mk (fmtInstantChars e.start), []⟩,
           ⟨"DTEND", String.mk (fmtInstantChars e.end_), []⟩] []) "DTEND" =
        some ⟨"DTEND", String.mk (fmtInstantChars e.end_), []⟩ from rfl,
      show get_ical_property
        (.mk "VEVENT"
          [⟨"UID", uid, []⟩, ⟨"SUMMARY", e.summary, []⟩,
           ⟨"DTSTART", String.mk (fmtInstantChars e.start), []⟩,
           ⟨"DTEND", String.mk (fmtInstantChars e.end_), []⟩] []) "SUMMARY" =
        some ⟨"SUMMARY", e.summary, []⟩ from rfl,
      parse_fmt_utc tzdb ⟨"DTSTART", String.mk (fmtInstantChars e.start), []⟩
        e.start rfl hs0 hs1,
      parse_fmt_utc tzdb ⟨"DTEND", String.mk (fmtInstantChars e.end_), []⟩
        e.end_ rfl he0 he1]
  have hret : retainedEvents (e.to_ical uid) =
      [.mk "VEVENT"
        [⟨"UID", uid, []⟩, ⟨"SUMMARY", e.summary, []⟩,
         ⟨"DTSTART", String.mk (fmtInstantChars e.start), []⟩,
         ⟨"DTEND", String.mk (fmtInstantChars e.end_), []⟩] []] := by
    unfold retainedEvents Event.to_ical
    simp only [Ical.children, List.filter_cons, List.filter_nil, Ical.name]
    rw [if_pos (by rfl)]
    rw [List.filter_cons, List.filter_nil]
    rw [if_pos]
    simp only [show get_ical_property
        (.mk "VEVENT"
          [⟨"UID", uid, []⟩, ⟨"SUMMARY", e.summary, []⟩,
           ⟨"DTSTART", String.mk (fmtInstantChars e.start), []⟩,
           ⟨"DTEND", String.mk (fmtInstantChars e.end_), []⟩] []) "DTSTART" =
        some ⟨"DTSTART", String.mk (fmtInstantChars e.start), []⟩ from rfl]
    exact fmtInstantChars_contains_T e.start
  refine ⟨?_, rfl, rfl, fmtInstantChars_canonical e.start hs0 hs1,
    fmtInstantChars_canonical e.end_ he0 he1⟩
  unfold fetch_caldav_events
  rw [hret]
  rw [List.filterMap_cons, List.filterMap_nil, hdec,
    List.filterMap_cons, List.filterMap_nil, hdec]
  rfl

/-- Witness for C4 at a concrete event: the encoded record of the event
(0s..60s, summary "x") under uid "u" decodes back to itself. -/
theorem to_ical_roundtrip_witness :
    fetch_caldav_events tzdb0 ((⟨0, 60, "x"⟩ : Event).to_ical "u") =
      ([⟨"u", ⟨0, 60, "x"⟩⟩], []) ∧
    ((⟨0, 60, "x"⟩ : Event).to_ical "u").children.map Ical.name = ["VEVENT"] ∧
    ((⟨0, 60, "x"⟩ : Event).to_ical "u").children.map
        (fun ve => ve.properties.map (·.name)) =
      [["UID", "SUMMARY", "DTSTART", "DTEND"]] ∧
    isCanonicalUtcValue (fmtInstantChars (0 : Int)) = true ∧
    isCanonicalUtcValue (fmtInstantChars (60 : Int)) = true :=
  to_ical_roundtrip ⟨0, 60, "x"⟩ "u" tzdb0 (by decide) (by decide)
    (by decide) (by decide)

/-! ### Claim C3 -/

/-- For a well-formed zone, `localToUtcSingle` returns an instant exactly
when the local reading has a unique preimage: a returned instant is the
unique UTC instant whose local wall clock reads `l`, and `none` is returned
exactly when no instant or more than one instant (DST gap or fold) reads
`l`. -/
theorem localToUtcSingle_spec (tz : TzModel) (hwf : tzWellFormed tz) (l : Int) :
    (∀ t : Int, localToUtcSingle tz l = some t →
      t + tz.offsetAtUtc t = l ∧ ∀ t' : Int, t' + tz.offsetAtUtc t' = l → t' = t) ∧
    (localToUtcSingle tz l = none ↔
      ¬ ∃! t : Int, t + tz.offsetAtUtc t = l) := by
  have hmem : ∀ o : Int,
      o ∈ (tz.possibleOffsets.filter (fun o => tz.offsetAtUtc (l - o) == o)).dedup ↔
        o ∈ tz.possibleOffsets ∧ tz.offsetAtUtc (l - o) = o := by
    intro o
    rw [List.mem_dedup, List.mem_filter, beq_iff_eq]
  have hsol : ∀ t : Int, t + tz.offsetAtUtc t = l →
      (l - t) ∈ (tz.possibleOffsets.filter
        (fun o => tz.offsetAtUtc (l - o) == o)).dedup := by
    intro t ht
    rw [hmem]
    have h1 : l - t = tz.offsetAtUtc t := by omega
    refine ⟨by rw [h1]; exact hwf t, ?_⟩
    have h2 : l - (l - t) = t := by omega
    rw [h2, ← h1]
  have hnodup := List.nodup_dedup (tz.possibleOffsets.filter
    (fun o => tz.offsetAtUtc (l - o) == o))
  unfold localToUtcSingle
  cases hd : (tz.possibleOffsets.filter
      (fun o => tz.offsetAtUtc (l - o) == o)).dedup with
  | nil =>
    constructor
    · intro t ht
      exact absurd ht (by simp)
    · constructor
      · rintro - ⟨t, ht, -⟩
        have hmt := hsol t ht
        rw [hd] at hmt
        exact absurd hmt (List.not_mem_nil _)
      · intro _
        rfl
  | cons o rest =>
    have ho : o ∈ tz.possibleOffsets ∧ tz.offsetAtUtc (l - o) = o := by
      rw [← hmem, hd]
      exact List.mem_cons_self o rest
    have hosol : (l - o) + tz.offsetAtUtc (l - o) = l := by
      rw [ho.2]
      omega
    cases rest with
    | nil =>
      have huniq : ∀ t' : Int, t' + tz.offsetAtUtc t' = l → t' = l - o := by
        intro t' ht'
        have hmt := hsol t' ht'
        rw [hd] at hmt
        have : l - t' = o := by simpa using hmt
        omega
      constructor
      · intro t ht
        have htlo : t = l - o := (Option.some.inj ht).symm
        rw [htlo]
        exact ⟨hosol, huniq⟩
      · constructor
        · intro hcon
          exact absurd hcon (by simp)
        · intro hnex
          exact absurd ⟨l - o, hosol, fun y hy => huniq y hy⟩ hnex
    | cons o2 rest2 =>
      have ho2 : o2 ∈ tz.possibleOffsets ∧ tz.offsetAtUtc (l - o2) = o2 := by
        rw [← hmem, hd]
        exact List.mem_cons_of_mem o (List.mem_cons_self o2 rest2)
      have ho2sol : (l - o2) + tz.offsetAtUtc (l - o2) = l := by
        rw [ho2.2]
        omega
      have hne : o ≠ o2 := by
        rw [hd] at hnodup
        have := (List.nodup_cons.mp hnodup).1
        intro hc
        rw [hc] at this
        exact this (List.mem_cons_self o2 rest2)
      constructor
      · intro t ht
        exact absurd ht (by simp)
      · constructor
        · rintro - ⟨t, ht, hu⟩
          have e1 := hu (l - o) hosol
          have e2 := hu (l - o2) ho2sol
          exact hne (by omega)
        · intro _
          rfl

theorem nyTz_wellFormed : tzWellFormed nyTz := by
  intro t
  show nyOffsetAtUtc t ∈ [-18000, -14400]
  unfold nyOffsetAtUtc
  split
  · simp
  · simp

/-- C3: a timestamp value ending in the UTC marker `Z` is parsed directly
as an absolute UTC instant — independent of any timezone database and
never with an `AmbiguousLocalTime` or missing-TZID error; otherwise the
property must carry a `TZID` attribute (else the parse fails with the
missing-TZID error); a zone-relative value naming a well-formed zone parses
to the UTC instant whose local wall clock in that zone reads the value,
and fails with `AmbiguousLocalTime` exactly when that local reading has
no unique instant — a DST fold (two instants) or gap (none); concretely,
local "2024-01-01T10:00:00" in America/New_York resolves to the UTC
instant 2024-01-01T15:00:00Z (epoch 1704121200). -/
theorem parse_ical_datetime_spec :
    (∀ (tzdb tzdb' : String → Option TzModel) (p : ICalProperty),
      p.value.data.getLast? = some 'Z' →
      parse_ical_datetime tzdb p = parse_ical_datetime tzdb' p ∧
      (∀ c : NaiveCivil, parseZChars p.value.data = some c →
        parse_ical_datetime tzdb p = .ok (epochOfCivil c)) ∧
      parse_ical_datetime tzdb p ≠ .error .ambiguousLocalTime ∧
      parse_ical_datetime tzdb p ≠ .error .missingTzid) ∧
    (∀ (tzdb : String → Option TzModel) (p : ICalProperty),
      ¬ p.value.data.getLast? = some 'Z' →
      attrsGet p.attributes "TZID" = none →
      parse_ical_datetime tzdb p = .error .missingTzid) ∧
    (∀ (tzdb : String → Option TzModel) (p : ICalProperty) (tzname : String)
        (tz : TzModel) (c : NaiveCivil),
      ¬ p.value.data.getLast? = some 'Z' →
      attrsGet p.attributes "TZID" = some tzname →
      tzdb tzname = some tz →
      tzWellFormed tz →
      parseCivilChars p.value.data = some c →
      ((∀ t : Int, parse_ical_datetime tzdb p = .ok t ↔
          (t + tz.offsetAtUtc t = epochOfCivil c ∧
           ∀ t' : Int, t' + tz.offsetAtUtc t' = epochOfCivil c → t' = t)) ∧
       (parse_ical_datetime tzdb p = .error .ambiguousLocalTime ↔
          ¬ ∃! t : Int, t + tz.offsetAtUtc t = epochOfCivil c))) ∧
    parse_ical_datetime tzdb0
      ⟨"DTSTART", "20240101T100000", [("TZID", "America/New_York")]⟩ =
      .ok 1704121200 := by
  refine ⟨?_, ?_, ?_, by decide⟩
  · intro tzdb tzdb' p h
    unfold parse_ical_datetime
    rw [if_pos h, if_pos h]
    cases hpz : parseZChars p.value.data with
    | some c =>
      refine ⟨rfl, ?_, by simp, by simp⟩
      intro c' hc'
      show Except.ok (epochOfCivil c) = Except.ok (epochOfCivil c')
      rw [Option.some.inj hc']
    | none =>
      refine ⟨rfl, ?_, by simp, by simp⟩
      intro c' hc'
      exact absurd hc' (by simp)
  · intro tzdb p hz hattr
    unfold parse_ical_datetime
    rw [if_neg hz, hattr]
  · intro tzdb p tzname tz c hz hattr htz hwf hciv
    have hspec := localToUtcSingle_spec tz hwf (epochOfCivil c)
    unfold parse_ical_datetime
    rw [if_neg hz]
    simp only [hattr, htz, hciv]
    cases hloc : localToUtcSingle tz (epochOfCivil c) with
    | some t0 =>
      obtain ⟨ht0, hu0⟩ := hspec.1 t0 hloc
      constructor
      · intro t
        constructor
        · intro hok
          have ht0t : t0 = t := Except.ok.inj hok
          rw [← ht0t]
          exact ⟨ht0, hu0⟩
        · rintro ⟨hsolt, hut⟩
          have ht0t : t0 = t := hut t0 ht0
          show Except.ok t0 = Except.ok t
          rw [ht0t]
      · constructor
        · intro hcon
          exact absurd hcon (by simp)
        · intro hnex
          exact absurd ⟨t0, ht0, fun y hy => hu0 y hy⟩ hnex
    | none =>
      constructor
      · intro t
        constructor
        · intro hok
          exact absurd hok (by simp)
        · rintro ⟨hsolt, hut⟩
          have : ∃! s : Int, s + tz.offsetAtUtc s = epochOfCivil c :=
            ⟨t, hsolt, fun y hy => hut y hy⟩
          exact absurd this (hspec.2.mp hloc)
      · exact ⟨fun _ => hspec.2.mp hloc, fun _ => rfl⟩

/-- Witness for C3 at concrete inputs: the local time 01:30 on 2024-11-03
in America/New_York falls in the DST fold (both 05:30Z and 06:30Z read
01:30 locally), so `parse_ical_datetime` fails with the ambiguous-local-
time error; and a zone-relative value with no `TZID` fails with the
missing-TZID error. -/
theorem parse_ical_datetime_spec_witness :
    parse_ical_datetime tzdb0
      ⟨"DTSTART", "20241103T013000", [("TZID", "America/New_York")]⟩ =
      .error .ambiguousLocalTime ∧
    parse_ical_datetime tzdb0 ⟨"DTSTART", "20240101T100000", []⟩ =
      .error .missingTzid := by
  constructor
  · have h := (parse_ical_datetime_spec.2.2.1 tzdb0
      ⟨"DTSTART", "20241103T013000", [("TZID", "America/New_York")]⟩
      "America/New_York" nyTz ⟨2024, 11, 3, 1, 30, 0⟩
      (by decide) rfl rfl nyTz_wellFormed (by decide)).2
    refine h.mpr ?_
    rintro ⟨t, ht, hu⟩
    have e1 := hu 1730611800 (by decide)
    have e2 := hu 1730615400 (by decide)
    omega
  · exact parse_ical_datetime_spec.2.1 tzdb0
      ⟨"DTSTART", "20240101T100000", []⟩ (by decide) rfl
